import Mathlib

set_option maxRecDepth 10000

/-!
Verification of the contindex decomposition-and-naming engine.

This file gives a shallow embedding of the core logic of the contindex
repository: the segmenter, the descriptor extractor and metadata
summarizer (`internal/classifier`), the filename sanitizer
(`internal/validation.SanitizeFileName`), and the index-synchronization
and conversion flow of the `cmd` package (`UpdateTemplateWithChapters`,
`analyzeAndGenerateFiles`, `previewConversion`, `printConversionSuccess`,
`runConvert`, `scanContextDirectory`).

Strings are embedded as `List Char` (`Str`); Go's `strings` helpers are
re-implemented character-wise with the same semantics (byte-level and
character-level indexing agree on the ASCII data handled by the tables
and constants of this program).  Go's `regexp.MatchString` is used by the
source only on alternations of plain literals, and is embedded as
"some alternative is a substring".  The Go source iterates over two map
literals (`techPatterns`, `funcPatterns`); since Go map iteration order
is unspecified, the embedding passes the iteration order in as an
explicit list argument; `techPatterns`/`funcPatterns` below give the
entries in their source declaration order.  File-system I/O (reading the
source document, writing chapter files) is modelled away: functions take
document text and return values.
-/

namespace Contindex

/-- Strings, embedded as lists of characters. -/
abbrev Str := List Char

/-- Character list of a string literal. -/
def strL (s : String) : Str := s.data

/-- Whitespace as recognized by Go's `unicode.IsSpace` (ASCII part plus
NEL and NBSP; the further Unicode space code points do not occur in the
program's data). -/
def goIsSpace (c : Char) : Bool :=
  c = ' ' || c = '\t' || c = '\n' || c = '\x0b' || c = '\x0c' || c = '\r' ||
  c = '\u0085' || c = ' '

/-- Go's `strings.TrimSpace`: trim whitespace from both ends. -/
def trimSpace (s : Str) : Str :=
  ((s.dropWhile goIsSpace).reverse.dropWhile goIsSpace).reverse

/-- Accumulator loop of `fields`: `acc` holds the current token reversed. -/
def fieldsAux : Str → Str → List Str
  | [], acc => if acc = [] then [] else [acc.reverse]
  | c :: cs, acc =>
      if goIsSpace c then
        if acc = [] then fieldsAux cs [] else acc.reverse :: fieldsAux cs []
      else fieldsAux cs (c :: acc)

/-- Go's `strings.Fields`: split around runs of whitespace. -/
def fields (s : Str) : List Str := fieldsAux s []

/-- Accumulator loop of `splitChar`. -/
def splitCharAux (sep : Char) : Str → Str → List Str
  | [], acc => [acc.reverse]
  | c :: cs, acc =>
      if c = sep then acc.reverse :: splitCharAux sep cs []
      else splitCharAux sep cs (c :: acc)

/-- Go's `strings.Split` with a single-character separator. -/
def splitChar (sep : Char) (s : Str) : List Str := splitCharAux sep s []

/-- Go's `strings.Join` with separator `"-"`. -/
def joinDash : List Str → Str
  | [] => []
  | [x] => x
  | x :: xs => x ++ '-' :: joinDash xs

/-- Go's `strings.Contains`: `pat` occurs as a contiguous substring of `s`. -/
def containsSub : Str → Str → Bool
  | [], pat => pat.isPrefixOf ([] : Str)
  | c :: cs, pat => pat.isPrefixOf (c :: cs) || containsSub cs pat

/-- Go's `strings.TrimSuffix`. -/
def trimSuffix (s suffix : Str) : Str :=
  if suffix.isSuffixOf s then s.take (s.length - suffix.length) else s

/-- Fuel-driven loop of `strings.ReplaceAll` (for a non-empty pattern):
replace non-overlapping occurrences of `pat` left to right.  `fuel` is an
upper bound on the number of characters still to scan; `replaceAll`
instantiates it with the length of the subject string. -/
def replaceAllGo (pat rep : Str) : Nat → Str → Str
  | _, [] => []
  | 0, s => s
  | Nat.succ fuel, c :: cs =>
      if pat.isPrefixOf (c :: cs) && !pat.isEmpty then
        rep ++ replaceAllGo pat rep fuel (cs.drop (pat.length - 1))
      else
        c :: replaceAllGo pat rep fuel cs

/-- Go's `strings.ReplaceAll s pat rep` for non-empty `pat`. -/
def replaceAll (pat rep s : Str) : Str := replaceAllGo pat rep s.length s

/-- Byte-wise (= code-point-wise) lexicographic string order used by
`os.ReadDir` to sort directory entries. -/
def lexLe : Str → Str → Bool
  | [], _ => true
  | _ :: _, [] => false
  | a :: as, b :: bs => if a < b then true else if a = b then lexLe as bs else false

/-! ## `internal/validation`: SanitizeFileName -/

/-- Maximum filename length (`internal/validation.MaxFileNameLength`). -/
def MaxFileNameLength : Nat := 100

/-- The nine characters `SanitizeFileName` replaces with `-`. -/
def dangerousChar (c : Char) : Bool :=
  c = '/' || c = '\\' || c = ':' || c = '*' || c = '?' || c = '"' ||
  c = '<' || c = '>' || c = '|'

/-- Loop of `collapseDashes`; the flag records whether the previously
emitted character was a dash. -/
def collapseAux : Str → Bool → Str
  | [], _ => []
  | c :: cs, prevDash =>
      if c = '-' then
        if prevDash then collapseAux cs true else '-' :: collapseAux cs true
      else c :: collapseAux cs false

/-- The regex step `multipleDashPattern.ReplaceAllString name "-"` with pattern `-+`:
collapse every run of dashes to a single dash. -/
def collapseDashes (s : Str) : Str := collapseAux s false

/-- Go's `strings.Trim name "-"`: trim dashes from both ends. -/
def trimDashes (s : Str) : Str :=
  ((s.dropWhile (fun c => c = '-')).reverse.dropWhile (fun c => c = '-')).reverse

/-- The character-replacement, dash-collapsing and dash-trimming steps
of `SanitizeFileName`. -/
def sanitizeCore (name : Str) : Str :=
  trimDashes (collapseDashes (name.map (fun c => if dangerousChar c then '-' else c)))

/-- The source's `internal/validation.SanitizeFileName`: replace the nine unsafe
characters with `-`, collapse dash runs, trim dashes, truncate to 100,
and fall back to `"unnamed"` when the result is empty. -/
def SanitizeFileName (name : Str) : Str :=
  let n := sanitizeCore name
  let n := if MaxFileNameLength < n.length then n.take MaxFileNameLength else n
  if n = [] then strL "unnamed" else n

/-! ## `internal/classifier`: data model and constants -/

/-- Minimum words for a standalone file (`classifier.MinWordCountForFile`). -/
def MinWordCountForFile : Nat := 10

/-- Maximum length for descriptive filenames (`classifier.MaxDescriptiveLength`). -/
def MaxDescriptiveLength : Nat := 60

/-- The source's `classifier.ContentSection`. -/
structure ContentSection where
  Title : Str
  Content : Str
  StartLine : Nat
  EndLine : Nat
  WordCount : Nat
deriving DecidableEq, Repr

/-- The source's `classifier.ContextFile`. -/
structure ContextFile where
  FileName : Str
  Content : Str
  WordCount : Nat
  TokenCount : Nat
  Summary : Str
  KeyTerms : List Str
deriving DecidableEq, Repr

/-- Stop words removed by `extractTitleDescriptor`. -/
def stopWords : List Str :=
  [strL "the", strL "and", strL "or", strL "but", strL "in", strL "on",
   strL "at", strL "to", strL "for", strL "of", strL "with", strL "by"]

/-- The `techPatterns` map of `extractTechnologyDescriptor`, as a list of
(alternative literals, descriptor) pairs in source declaration order.
Each Go regexp in the map is an alternation of plain literals. -/
def techPatterns : List (List Str × Str) :=
  [([strL "postgresql", strL "postgres", strL "pg"], strL "postgresql"),
   ([strL "mongodb", strL "mongo"], strL "mongodb"),
   ([strL "redis"], strL "redis"),
   ([strL "kubernetes", strL "k8s"], strL "kubernetes"),
   ([strL "docker"], strL "docker"),
   ([strL "jwt", strL "oauth"], strL "oauth"),
   ([strL "stripe", strL "payment"], strL "payments"),
   ([strL "webhook"], strL "webhooks"),
   ([strL "graphql", strL "gql"], strL "graphql"),
   ([strL "rest", strL "api"], strL "rest-api")]

/-- The `funcPatterns` map of `extractFunctionDescriptor`, in source
declaration order. -/
def funcPatterns : List (List Str × Str) :=
  [([strL "authentication", strL "auth", strL "login"], strL "authentication"),
   ([strL "authorization", strL "permission"], strL "authorization"),
   ([strL "database", strL "schema", strL "model"], strL "database"),
   ([strL "deployment", strL "deploy", strL "production"], strL "deployment"),
   ([strL "monitoring", strL "metrics", strL "logging"], strL "monitoring"),
   ([strL "security", strL "encryption", strL "compliance"], strL "security"),
   ([strL "testing", strL "test", strL "spec"], strL "testing"),
   ([strL "configuration", strL "config", strL "setup"], strL "configuration")]

/-- Semantics of `regexp.MatchString` for an alternation of literals: some alternative
occurs in `content`. -/
def matchesAlternation (alts : List Str) (content : Str) : Bool :=
  alts.any (fun a => containsSub content a)

/-- The `for pattern, descriptor := range m` loop shared by
`extractTechnologyDescriptor` and `extractFunctionDescriptor`: return the
descriptor of the first matching entry of `table`, or `""`.  `table` is
the map-iteration order (any permutation of the declaration-order list). -/
def extractPatternDescriptor (table : List (List Str × Str)) (content : Str) : Str :=
  match table with
  | [] => []
  | (alts, d) :: rest =>
      if matchesAlternation alts content then d
      else extractPatternDescriptor rest content

/-- The source's `classifier.extractTechnologyDescriptor`, with the map-iteration
order passed explicitly. -/
def extractTechnologyDescriptor (techOrder : List (List Str × Str)) (content : Str) : Str :=
  extractPatternDescriptor techOrder content

/-- The source's `classifier.extractFunctionDescriptor`, with the map-iteration order
passed explicitly. -/
def extractFunctionDescriptor (funcOrder : List (List Str × Str)) (content : Str) : Str :=
  extractPatternDescriptor funcOrder content

/-- The source's `classifier.extractTitleDescriptor`: lower-case the title, drop stop
words and words of length ≤ 2, keep the first 3 words, join with `-`.
(Go measures `len(word)` in bytes; on the ASCII data involved this equals
the character count used here.) -/
def extractTitleDescriptor (title : Str) : Str :=
  let t := title.map Char.toLower
  let words := fields t
  let meaningful := words.filter (fun w => !stopWords.contains w && 2 < w.length)
  let meaningful := if 3 < meaningful.length then meaningful.take 3 else meaningful
  joinDash meaningful

/-- The descriptor accumulation of `generateDescriptiveFileName`: the
title descriptor, the technology descriptor and the function descriptor,
each appended only when non-empty.  `content` inside is the lower-cased
`Title + " " + Content`. -/
def descriptorList (techOrder funcOrder : List (List Str × Str))
    (sec : ContentSection) : List Str :=
  let content := (sec.Title ++ ' ' :: sec.Content).map Char.toLower
  let titleDesc := extractTitleDescriptor sec.Title
  let techDesc := extractTechnologyDescriptor techOrder content
  let funcDesc := extractFunctionDescriptor funcOrder content
  (if titleDesc = [] then [] else [titleDesc]) ++
  (if techDesc = [] then [] else [techDesc]) ++
  (if funcDesc = [] then [] else [funcDesc])

/-- The source's `classifier.generateDescriptiveFileName`.  `techOrder`/`funcOrder`
are the iteration orders of the two pattern maps. -/
def generateDescriptiveFileName (techOrder funcOrder : List (List Str × Str))
    (sec : ContentSection) : Str :=
  let fileName := joinDash (descriptorList techOrder funcOrder sec)
  let fileName := SanitizeFileName fileName
  let fileName := if MaxDescriptiveLength < fileName.length
                  then fileName.take MaxDescriptiveLength else fileName
  let fileName := if fileName = [] then strL "general-context" else fileName
  fileName ++ strL ".md"

/-- Term vocabulary of `extractKeyTerms`, in declaration order. -/
def termPatterns : List Str :=
  [strL "api", strL "endpoint", strL "database", strL "schema",
   strL "authentication", strL "authorization", strL "security",
   strL "deployment", strL "monitoring", strL "testing", strL "configuration",
   strL "jwt", strL "oauth", strL "postgresql", strL "mongodb", strL "redis",
   strL "kubernetes", strL "docker"]

/-- The source's `classifier.extractKeyTerms`. -/
def extractKeyTerms (sec : ContentSection) : List Str :=
  let content := sec.Content.map Char.toLower
  termPatterns.filter (fun t => containsSub content t)

/-- The source's `classifier.generateContentSummary`. -/
def generateContentSummary (sec : ContentSection) : Str :=
  let content := sec.Content
  let sentences := splitChar '.' content
  let fallback := if 100 < content.length then content.take 100 ++ strL "..." else content
  match sentences with
  | [] => fallback
  | s0 :: _ =>
      if 10 < s0.length then
        let summary := trimSpace s0
        if 100 < summary.length then summary.take 100 ++ strL "..." else summary
      else fallback

/-! ## `internal/classifier`: segmentation (`parseSourceFile`) -/

/-- A line opens a new section iff its trimmed form starts with `##`. -/
def isHeader (line : Str) : Bool := (strL "##").isPrefixOf (trimSpace line)

/-- Title of a header line: `TrimSpace(TrimLeft(line, "#"))`. -/
def headerTitle (line : Str) : Str := trimSpace (line.dropWhile (fun c => c = '#'))

/-- Closing a section (`parseSourceFile`): trim the accumulated buffer,
set the end line and compute the word count. -/
def closeSection (title : Str) (startLine : Nat) (buf : Str) (endLine : Nat) :
    ContentSection :=
  let content := trimSpace buf
  { Title := title, Content := content, StartLine := startLine,
    EndLine := endLine, WordCount := (fields content).length }

/-- The scanning loop of `parseSourceFile`.  `ln` is the number of lines
already consumed, `cur` the open section's (title, start line) if any,
`buf` the accumulated content buffer. -/
def parseLines : List Str → Nat → Option (Str × Nat) → Str → List ContentSection
  | [], _, none, _ => []
  | [], ln, some (t, sl), buf =>
      let s := closeSection t sl buf ln
      if MinWordCountForFile ≤ s.WordCount then [s] else []
  | line :: rest, ln, cur, buf =>
      if isHeader line then
        (match cur with
         | none => []
         | some (t, sl) =>
             let s := closeSection t sl buf ln
             if MinWordCountForFile ≤ s.WordCount then [s] else []) ++
        parseLines rest (ln + 1) (some (headerTitle line, ln + 1)) []
      else
        match cur with
        | none => parseLines rest (ln + 1) none buf
        | some c => parseLines rest (ln + 1) (some c) (buf ++ line ++ ['\n'])

/-- Per `bufio.ScanLines`: trailing `\r` of a line is dropped. -/
def dropCR (l : Str) : Str := if l.getLast? = some '\r' then l.dropLast else l

/-- Line splitting done by `bufio.Scanner` with `ScanLines`: split at
`\n`, drop a final empty token produced by a trailing newline, strip a
trailing `\r` from each line. -/
def splitLinesGo (s : Str) : List Str :=
  if s = [] then []
  else
    let parts := splitChar '\n' s
    let parts := if s.getLast? = some '\n' then parts.dropLast else parts
    parts.map dropCR

/-- The source's `classifier.parseSourceFile`, with the file's content passed in
place of the file read. -/
def parseSourceFile (content : Str) : List ContentSection :=
  parseLines (splitLinesGo content) 0 none []

/-- Estimated characters per token (`classifier.TokenEstimationRatio`). -/
def TokenEstimationRatio : Nat := 4

/-- The source's `classifier.generateContextFiles` over already-parsed sections. -/
def generateContextFiles (techOrder funcOrder : List (List Str × Str))
    (sections : List ContentSection) : List ContextFile :=
  sections.map (fun sec =>
    { FileName := generateDescriptiveFileName techOrder funcOrder sec,
      Content := sec.Content,
      WordCount := sec.WordCount,
      TokenCount := sec.Content.length / TokenEstimationRatio,
      Summary := generateContentSummary sec,
      KeyTerms := extractKeyTerms sec })

/-- The source's `classifier.FileAnalyzer.AnalyzeAndGenerate` on the source document's
text (input validation and the file read are I/O, modelled away). -/
def AnalyzeAndGenerate (techOrder funcOrder : List (List Str × Str))
    (content : Str) : List ContextFile :=
  generateContextFiles techOrder funcOrder (parseSourceFile content)

/-! ## `cmd/convert.go` and `cmd/update.go` -/

/-- The error message of `analyzeAndGenerateFiles` for an empty result. -/
def noSectionsMsg : Str := strL "no content sections found in source file"

/-- The source's `cmd.analyzeAndGenerateFiles`: run the analyzer on the source
document and turn an empty result into a distinct error. -/
def analyzeAndGenerateFiles (techOrder funcOrder : List (List Str × Str))
    (content : Str) : Except Str (List ContextFile) :=
  let contextFiles := AnalyzeAndGenerate techOrder funcOrder content
  if contextFiles = [] then Except.error noSectionsMsg
  else Except.ok contextFiles

/-- The source's `cmd.previewConversion`: the printed `Total tokens / len(contextFiles)`
average.  Go's integer division panics on a zero divisor; that branch is
modelled as `none`. -/
def previewConversion (contextFiles : List ContextFile) : Option Nat :=
  let totalTokens := (contextFiles.map ContextFile.TokenCount).sum
  if contextFiles.length = 0 then none
  else some (totalTokens / contextFiles.length)

/-- The source's `cmd.printConversionSuccess`: the printed
`Average per chapter` token count, `none` for the division-by-zero panic. -/
def printConversionSuccess (contextFiles : List ContextFile) : Option Nat :=
  let totalTokens := (contextFiles.map ContextFile.TokenCount).sum
  if contextFiles.length = 0 then none
  else some (totalTokens / contextFiles.length)

/-- The source's `cmd.runConvert` after input validation and backup (both pure I/O,
modelled away): analyze the source, then either preview (dry run) or
execute the conversion and print the success report.  The returned value
is the average-tokens-per-file figure printed on the taken path. -/
def runConvert (techOrder funcOrder : List (List Str × Str))
    (dryRun : Bool) (content : Str) : Except Str (Option Nat) :=
  match analyzeAndGenerateFiles techOrder funcOrder content with
  | Except.error e => Except.error e
  | Except.ok contextFiles =>
      if dryRun then Except.ok (previewConversion contextFiles)
      else Except.ok (printConversionSuccess contextFiles)

/-- First placeholder of `UpdateTemplateWithChapters`. -/
def chapterPlaceholder : Str :=
  strL "(Chapter files will be listed here when you run `contindex update` or `contindex convert`)"

/-- Second placeholder of `UpdateTemplateWithChapters`. -/
def contextPlaceholder : Str :=
  strL "(Context files will be listed here when you run `contindex update` or `contindex convert`)"

/-- One line of the generated chapter list: the 1-based index, the name
without its .md suffix in bold, and the backquoted dir-slash-name path,
ending in a newline. -/
def chapterLine (idx : Nat) (fileName dir : Str) : Str :=
  Nat.toDigits 10 (idx + 1) ++ strL ". **" ++ trimSuffix fileName (strL ".md") ++
  strL "** - `" ++ dir ++ strL "/" ++ fileName ++ strL "`" ++ strL "\n"

/-- The chapter list built by the loop of `UpdateTemplateWithChapters`. -/
def chapterListStr (contextFiles : List ContextFile) (dir : Str) : Str :=
  (contextFiles.enum.map (fun p => chapterLine p.1 p.2.FileName dir)).flatten

/-- The trimmed chapter list substituted for the placeholders. -/
def renderedChapters (contextFiles : List ContextFile) (dir : Str) : Str :=
  trimSpace (chapterListStr contextFiles dir)

/-- The source's `cmd.UpdateTemplateWithChapters` on the index document's text:
`strings.ReplaceAll` each of the two placeholders (in order) with the
trimmed chapter list, exactly as the Go loop over `placeholders` does. -/
def UpdateTemplateWithChapters (doc : Str) (contextFiles : List ContextFile)
    (dir : Str) : Str :=
  let lst := renderedChapters contextFiles dir
  [chapterPlaceholder, contextPlaceholder].foldl
    (fun d placeholder => replaceAll placeholder lst d) doc

/-- A directory entry as returned by `os.ReadDir` (name and whether it
is a directory). -/
structure DirEntry where
  name : Str
  isDir : Bool
deriving DecidableEq, Repr

/-- The filter of `cmd.scanContextDirectory`: skip directories and
non-`.md` names. -/
def keepEntry (e : DirEntry) : Bool :=
  !e.isDir && (strL ".md").isSuffixOf e.name

/-- The source's `cmd.scanContextDirectory` on a directory listing: keep `.md`
non-directory entries, as bare `ContextFile`s carrying only the name
(`os.ReadDir` returns the listing sorted by filename; that postcondition
appears as a hypothesis of the theorems below). -/
def scanContextDirectory (entries : List DirEntry) : List ContextFile :=
  (entries.filter keepEntry).map (fun e =>
    { FileName := e.name, Content := [], WordCount := 0, TokenCount := 0,
      Summary := [], KeyTerms := [] })

/-! ## Helper lemmas: `replaceAll` and `containsSub` -/

theorem replaceAllGo_nil (pat rep : Str) (fuel : Nat) :
    replaceAllGo pat rep fuel [] = [] := by
  cases fuel <;> rfl

theorem replaceAllGo_fuel (pat rep : Str) :
    ∀ f1 f2 s, s.length ≤ f1 → s.length ≤ f2 →
      replaceAllGo pat rep f1 s = replaceAllGo pat rep f2 s := by
  intro f1
  induction f1 with
  | zero =>
      intro f2 s h1 _
      have hs : s = [] := List.length_eq_zero.mp (Nat.le_zero.mp h1)
      subst hs
      rw [replaceAllGo_nil, replaceAllGo_nil]
  | succ f1 ih =>
      intro f2 s h1 h2
      cases s with
      | nil => rw [replaceAllGo_nil, replaceAllGo_nil]
      | cons c cs =>
          cases f2 with
          | zero => exact absurd h2 (by simp)
          | succ f2 =>
              show (if (pat.isPrefixOf (c :: cs) && !pat.isEmpty) = true then _ else _)
                   = (if (pat.isPrefixOf (c :: cs) && !pat.isEmpty) = true then _ else _)
              split
              · have hd : (cs.drop (pat.length - 1)).length ≤ cs.length := by
                  simp [List.length_drop]
                have hcs : cs.length ≤ f1 := by simpa using h1
                have hcs2 : cs.length ≤ f2 := by simpa using h2
                rw [ih f2 _ (Nat.le_trans hd hcs) (Nat.le_trans hd hcs2)]
              · have hcs : cs.length ≤ f1 := by simpa using h1
                have hcs2 : cs.length ≤ f2 := by simpa using h2
                rw [ih f2 cs hcs hcs2]

theorem replaceAll_cons_of_not_matched (pat rep : Str) (c : Char) (cs : Str)
    (h : pat.isPrefixOf (c :: cs) = false) :
    replaceAll pat rep (c :: cs) = c :: replaceAll pat rep cs := by
  show replaceAllGo pat rep (cs.length + 1) (c :: cs) = _
  show (if (pat.isPrefixOf (c :: cs) && !pat.isEmpty) = true then _ else _) = _
  rw [h]
  simp [replaceAll]

theorem containsSub_cons_false (pat : Str) (c : Char) (cs : Str)
    (h : containsSub (c :: cs) pat = false) :
    pat.isPrefixOf (c :: cs) = false ∧ containsSub cs pat = false := by
  have := h
  rw [show containsSub (c :: cs) pat
        = (pat.isPrefixOf (c :: cs) || containsSub cs pat) from rfl] at this
  exact Bool.or_eq_false_iff.mp this

/-- Go's `strings.ReplaceAll` is the identity when the pattern does not occur. -/
theorem replaceAll_of_not_contains (pat rep : Str) :
    ∀ s, containsSub s pat = false → replaceAll pat rep s = s := by
  intro s
  induction s with
  | nil => intro _; rfl
  | cons c cs ih =>
      intro h
      obtain ⟨h1, h2⟩ := containsSub_cons_false pat c cs h
      rw [replaceAll_cons_of_not_matched pat rep c cs h1, ih h2]

theorem isPrefixOf_append_self (p s : Str) : p.isPrefixOf (p ++ s) = true := by
  induction p with
  | nil => exact List.isPrefixOf_nil_left
  | cons c cs ih => simp [List.isPrefixOf_cons₂, ih]

theorem isPrefixOf_cons_ne (m a : Char) (pt s : Str) (h : a ≠ m) :
    (m :: pt).isPrefixOf (a :: s) = false := by
  simp [List.isPrefixOf]
  intro hma
  exact absurd hma.symm h

/-- Replacing a pattern that starts at the pattern itself: one occurrence
is consumed and scanning continues after it. -/
theorem replaceAll_self_append (c : Char) (pt rep s : Str) :
    replaceAll (c :: pt) rep ((c :: pt) ++ s) = rep ++ replaceAll (c :: pt) rep s := by
  show replaceAllGo (c :: pt) rep ((pt ++ s).length + 1) (c :: (pt ++ s)) = _
  show (if ((c :: pt).isPrefixOf (c :: (pt ++ s)) && !(c :: pt).isEmpty) = true
        then _ else _) = _
  rw [show (c : Char) :: (pt ++ s) = (c :: pt) ++ s from rfl,
      isPrefixOf_append_self (c :: pt) s]
  simp only [List.isEmpty, Bool.not_false, Bool.and_self, if_true]
  congr 1
  have hdrop : (pt ++ s).drop ((c :: pt).length - 1) = s := by
    simp [List.drop_left]
  rw [hdrop]
  exact replaceAllGo_fuel _ _ _ _ _ (by simp) (Nat.le_refl _)

/-- Scanning past a block that cannot contain a match because the
pattern's first character does not occur in it. -/
theorem replaceAll_append_left (m : Char) (pt rep s : Str) :
    ∀ A, (∀ a ∈ A, a ≠ m) →
      replaceAll (m :: pt) rep (A ++ s) = A ++ replaceAll (m :: pt) rep s := by
  intro A
  induction A with
  | nil => intro _; rfl
  | cons a A ih =>
      intro hA
      rw [List.cons_append,
          replaceAll_cons_of_not_matched _ _ _ _
            (isPrefixOf_cons_ne m a pt (A ++ s) (hA a (List.mem_cons_self a A))),
          ih (fun x hx => hA x (List.mem_cons_of_mem a hx))]
      rfl

/-- A pattern whose first character does not occur in `s` does not occur
in `s`. -/
theorem not_contains_of_marker (m : Char) (pt : Str) :
    ∀ s, (∀ c ∈ s, c ≠ m) → containsSub s (m :: pt) = false := by
  intro s
  induction s with
  | nil => intro _; rfl
  | cons c cs ih =>
      intro hs
      rw [show containsSub (c :: cs) (m :: pt)
            = ((m :: pt).isPrefixOf (c :: cs) || containsSub cs (m :: pt)) from rfl,
          isPrefixOf_cons_ne m c pt cs (hs c (List.mem_cons_self c cs)),
          ih (fun x hx => hs x (List.mem_cons_of_mem c hx))]
      rfl

/-- Unfolding of `UpdateTemplateWithChapters`: the two placeholder
substitutions in order. -/
theorem UpdateTemplateWithChapters_eq (doc : Str) (contextFiles : List ContextFile)
    (dir : Str) :
    UpdateTemplateWithChapters doc contextFiles dir
      = replaceAll contextPlaceholder (renderedChapters contextFiles dir)
          (replaceAll chapterPlaceholder (renderedChapters contextFiles dir) doc) := rfl

theorem chapterPlaceholder_cons :
    chapterPlaceholder
      = '(' :: strL "Chapter files will be listed here when you run `contindex update` or `contindex convert`)" := rfl

theorem contextPlaceholder_cons :
    contextPlaceholder
      = '(' :: strL "Context files will be listed here when you run `contindex update` or `contindex convert`)" := rfl

/-! ## Helper lemmas: segmentation -/

/-- The text of a run of body lines as accumulated by the scanner's
content buffer: each line followed by a newline. -/
def joinLines (ls : List Str) : Str := (ls.map (fun l => l ++ ['\n'])).flatten

/-- The lines of one (header, body) block. -/
def blockLines (b : Str × List Str) : List Str := b.1 :: b.2

/-- The lines of a list of blocks. -/
def blocksLines (bs : List (Str × List Str)) : List Str := (bs.map blockLines).flatten

theorem parseLines_cons (line : Str) (rest : List Str) (ln : Nat)
    (cur : Option (Str × Nat)) (buf : Str) :
    parseLines (line :: rest) ln cur buf =
      if isHeader line then
        (match cur with
         | none => []
         | some (t, sl) =>
             let s := closeSection t sl buf ln
             if MinWordCountForFile ≤ s.WordCount then [s] else []) ++
        parseLines rest (ln + 1) (some (headerTitle line, ln + 1)) []
      else
        match cur with
        | none => parseLines rest (ln + 1) none buf
        | some c => parseLines rest (ln + 1) (some c) (buf ++ line ++ ['\n']) := rfl

theorem parseLines_cons_skip (line : Str) (rest : List Str) (ln : Nat) (buf : Str)
    (h : isHeader line = false) :
    parseLines (line :: rest) ln none buf = parseLines rest (ln + 1) none buf := by
  rw [parseLines_cons]; simp [h]

theorem parseLines_cons_accum (line : Str) (rest : List Str) (ln : Nat)
    (t : Str) (sl : Nat) (buf : Str) (h : isHeader line = false) :
    parseLines (line :: rest) ln (some (t, sl)) buf
      = parseLines rest (ln + 1) (some (t, sl)) (buf ++ line ++ ['\n']) := by
  rw [parseLines_cons]; simp [h]

theorem parseLines_cons_header_none (line : Str) (rest : List Str) (ln : Nat)
    (buf : Str) (h : isHeader line = true) :
    parseLines (line :: rest) ln none buf
      = parseLines rest (ln + 1) (some (headerTitle line, ln + 1)) [] := by
  rw [parseLines_cons]; simp [h]

theorem parseLines_cons_header_some (line : Str) (rest : List Str) (ln : Nat)
    (t : Str) (sl : Nat) (buf : Str) (h : isHeader line = true) :
    parseLines (line :: rest) ln (some (t, sl)) buf
      = (if MinWordCountForFile ≤ (closeSection t sl buf ln).WordCount
         then [closeSection t sl buf ln] else []) ++
        parseLines rest (ln + 1) (some (headerTitle line, ln + 1)) [] := by
  rw [parseLines_cons]; simp [h]

/-- Content before the first header is discarded. -/
theorem parseLines_skip_pre (rest : List Str) (buf : Str) :
    ∀ pre ln, (∀ l ∈ pre, isHeader l = false) →
      parseLines (pre ++ rest) ln none buf
        = parseLines rest (ln + pre.length) none buf := by
  intro pre
  induction pre with
  | nil => intro ln _; simp
  | cons p pre ih =>
      intro ln hp
      rw [List.cons_append,
          parseLines_cons_skip p (pre ++ rest) ln buf (hp p (List.mem_cons_self p pre)),
          ih (ln + 1) (fun l hl => hp l (List.mem_cons_of_mem p hl))]
      congr 1
      simp [Nat.add_comm, Nat.add_assoc, Nat.add_left_comm]

/-- Non-header lines accumulate into the open section's buffer. -/
theorem parseLines_accum_body (rest : List Str) (t : Str) (sl : Nat) :
    ∀ body buf ln, (∀ l ∈ body, isHeader l = false) →
      parseLines (body ++ rest) ln (some (t, sl)) buf
        = parseLines rest (ln + body.length) (some (t, sl)) (buf ++ joinLines body) := by
  intro body
  induction body with
  | nil => intro buf ln _; simp [joinLines]
  | cons b body ih =>
      intro buf ln hb
      rw [List.cons_append,
          parseLines_cons_accum b (body ++ rest) ln t sl buf
            (hb b (List.mem_cons_self b body)),
          ih (buf ++ b ++ ['\n']) (ln + 1) (fun l hl => hb l (List.mem_cons_of_mem b hl))]
      congr 1
      · simp [Nat.add_comm, Nat.add_assoc, Nat.add_left_comm]
      · simp [joinLines, List.append_assoc]

/-- A document with no qualifying header yields no sections. -/
theorem parseLines_no_headers :
    ∀ lines ln buf, (∀ l ∈ lines, isHeader l = false) →
      parseLines lines ln none buf = [] := by
  intro lines
  induction lines with
  | nil => intro ln buf _; rfl
  | cons line rest ih =>
      intro ln buf h
      rw [parseLines_cons_skip line rest ln buf (h line (List.mem_cons_self line rest)),
          ih (ln + 1) buf (fun l hl => h l (List.mem_cons_of_mem line hl))]

/-- Well-formed blocks: header line, header-free body, body of at least
the minimum word count. -/
def WfBlock (b : Str × List Str) : Prop :=
  isHeader b.1 = true ∧ (∀ l ∈ b.2, isHeader l = false) ∧
  MinWordCountForFile ≤ (fields (trimSpace (joinLines b.2))).length

instance (b : Str × List Str) : Decidable (WfBlock b) := by
  unfold WfBlock; infer_instance

/-- Scanning well-formed blocks with an open, large-enough section emits
that section and then one section per block, in order. -/
theorem parseLines_blocks :
    ∀ (blocks : List (Str × List Str)) (ln : Nat) (t : Str) (sl : Nat) (buf : Str),
      (∀ b ∈ blocks, WfBlock b) →
      MinWordCountForFile ≤ (fields (trimSpace buf)).length →
      (parseLines (blocksLines blocks) ln (some (t, sl)) buf).map
          (fun s => (s.Title, s.Content))
        = (t, trimSpace buf) ::
          blocks.map (fun b => (headerTitle b.1, trimSpace (joinLines b.2))) := by
  intro blocks
  induction blocks with
  | nil =>
      intro ln t sl buf _ hcur
      show (parseLines [] ln (some (t, sl)) buf).map _ = _
      rw [show parseLines [] ln (some (t, sl)) buf
            = (if MinWordCountForFile ≤ (closeSection t sl buf ln).WordCount
               then [closeSection t sl buf ln] else []) from rfl,
          if_pos (by simpa [closeSection] using hcur)]
      simp [closeSection]
  | cons b blocks ih =>
      intro ln t sl buf hwf hcur
      obtain ⟨hhd, hbody, hcnt⟩ := hwf b (List.mem_cons_self b blocks)
      rw [show blocksLines (b :: blocks) = b.1 :: (b.2 ++ blocksLines blocks) from by
            simp [blocksLines, blockLines],
          parseLines_cons_header_some b.1 (b.2 ++ blocksLines blocks) ln t sl buf hhd,
          if_pos (by simpa [closeSection] using hcur),
          parseLines_accum_body (blocksLines blocks) (headerTitle b.1) (ln + 1) b.2 []
            (ln + 1) hbody,
          List.nil_append, List.map_append,
          ih (ln + 1 + b.2.length) (headerTitle b.1) (ln + 1) (joinLines b.2)
            (fun x hx => hwf x (List.mem_cons_of_mem b hx)) hcnt]
      simp [closeSection]

/-- Every section the scanner emits passed the minimum-word-count filter,
and its word count is the token count of its content. -/
theorem parseLines_wordCount :
    ∀ (lines : List Str) (ln : Nat) (cur : Option (Str × Nat)) (buf : Str)
      (s : ContentSection), s ∈ parseLines lines ln cur buf →
      MinWordCountForFile ≤ s.WordCount ∧ s.WordCount = (fields s.Content).length := by
  intro lines
  induction lines with
  | nil =>
      intro ln cur buf s hs
      match cur with
      | none => exact absurd hs (List.not_mem_nil s)
      | some (t, sl) =>
          revert hs
          show s ∈ (if MinWordCountForFile ≤ (closeSection t sl buf ln).WordCount
                    then [closeSection t sl buf ln] else []) → _
          split
          · intro hs
            rw [List.mem_singleton.mp hs]
            refine ⟨by assumption, ?_⟩
            simp [closeSection]
          · intro hs; exact absurd hs (List.not_mem_nil s)
  | cons line rest ih =>
      intro ln cur buf s hs
      rw [parseLines_cons] at hs
      by_cases hh : isHeader line = true
      · rw [if_pos hh, List.mem_append] at hs
        rcases hs with hs | hs
        · match cur with
          | none => exact absurd hs (List.not_mem_nil s)
          | some (t, sl) =>
              revert hs
              show s ∈ (if MinWordCountForFile ≤ (closeSection t sl buf ln).WordCount
                        then [closeSection t sl buf ln] else []) → _
              split
              · intro hs
                rw [List.mem_singleton.mp hs]
                refine ⟨by assumption, ?_⟩
                simp [closeSection]
              · intro hs; exact absurd hs (List.not_mem_nil s)
        · exact ih _ _ _ s hs
      · rw [if_neg hh] at hs
        match cur with
        | none => exact ih _ _ _ s hs
        | some c => exact ih _ _ _ s hs

/-! ## Helper lemmas: filename sanitization and descriptors -/

theorem collapseAux_subset :
    ∀ (s : Str) (b : Bool) (x : Char), x ∈ collapseAux s b → x ∈ s := by
  intro s
  induction s with
  | nil => intro b x hx; exact absurd hx (List.not_mem_nil x)
  | cons c cs ih =>
      intro b x hx
      by_cases hc : c = '-'
      · subst hc
        cases b with
        | true =>
            exact List.mem_cons_of_mem _ (ih true x (by simpa [collapseAux] using hx))
        | false =>
            have : x ∈ '-' :: collapseAux cs true := by simpa [collapseAux] using hx
            rcases List.mem_cons.mp this with h | h
            · exact h ▸ List.mem_cons_self _ _
            · exact List.mem_cons_of_mem _ (ih true x h)
      · have : x ∈ c :: collapseAux cs false := by simpa [collapseAux, hc] using hx
        rcases List.mem_cons.mp this with h | h
        · exact h ▸ List.mem_cons_self _ _
        · exact List.mem_cons_of_mem _ (ih false x h)

theorem trimDashes_subset (s : Str) (x : Char) (hx : x ∈ trimDashes s) : x ∈ s := by
  unfold trimDashes at hx
  rw [List.mem_reverse] at hx
  have h1 := (List.dropWhile_sublist _).subset hx
  rw [List.mem_reverse] at h1
  exact (List.dropWhile_sublist _).subset h1

/-- Characters surviving `SanitizeFileName` are neither unsafe nor
whitespace (when the input has no whitespace), and the output is
non-empty. -/
theorem SanitizeFileName_clean (s : Str) (hs : ∀ c ∈ s, goIsSpace c = false) :
    (∀ c ∈ SanitizeFileName s, dangerousChar c = false ∧ goIsSpace c = false) ∧
    0 < (SanitizeFileName s).length := by
  have h1 : ∀ c ∈ s.map (fun c => if dangerousChar c then '-' else c),
      dangerousChar c = false ∧ goIsSpace c = false := by
    intro c hc
    obtain ⟨a, ha, rfl⟩ := List.mem_map.mp hc
    by_cases hd : dangerousChar a = true
    · rw [if_pos hd]
      exact ⟨by decide, by decide⟩
    · rw [Bool.not_eq_true] at hd
      rw [if_neg (by simp [hd])]
      exact ⟨hd, hs a ha⟩
  have h3 : ∀ c ∈ sanitizeCore s, dangerousChar c = false ∧ goIsSpace c = false :=
    fun c hc => h1 c (collapseAux_subset _ false c (trimDashes_subset _ c hc))
  have h4 : ∀ c ∈ (if MaxFileNameLength < (sanitizeCore s).length
                   then (sanitizeCore s).take MaxFileNameLength
                   else sanitizeCore s),
      dangerousChar c = false ∧ goIsSpace c = false := by
    split
    · intro c hc; exact h3 c (List.take_subset _ _ hc)
    · exact h3
  have hSF : SanitizeFileName s
      = if (if MaxFileNameLength < (sanitizeCore s).length
            then (sanitizeCore s).take MaxFileNameLength
            else sanitizeCore s) = []
        then strL "unnamed"
        else (if MaxFileNameLength < (sanitizeCore s).length
              then (sanitizeCore s).take MaxFileNameLength
              else sanitizeCore s) := rfl
  rw [hSF]
  by_cases hXe : (if MaxFileNameLength < (sanitizeCore s).length
                  then (sanitizeCore s).take MaxFileNameLength
                  else sanitizeCore s) = []
  · rw [if_pos hXe]
    exact ⟨by decide, by decide⟩
  · rw [if_neg hXe]
    exact ⟨h4, List.length_pos.mpr hXe⟩

theorem fieldsAux_no_space :
    ∀ (s acc : Str), (∀ c ∈ acc, goIsSpace c = false) →
      ∀ w ∈ fieldsAux s acc, ∀ c ∈ w, goIsSpace c = false := by
  intro s
  induction s with
  | nil =>
      intro acc hacc w hw
      revert hw
      show w ∈ (if acc = [] then [] else [acc.reverse]) → _
      split
      · intro hw; exact absurd hw (List.not_mem_nil w)
      · intro hw c hc
        rw [List.mem_singleton.mp hw] at hc
        exact hacc c (List.mem_reverse.mp hc)
  | cons a cs ih =>
      intro acc hacc w hw
      by_cases ha : goIsSpace a = true
      · have hw2 : w ∈ if acc = [] then fieldsAux cs []
                    else acc.reverse :: fieldsAux cs [] := by
          simpa [fieldsAux, ha] using hw
        revert hw2
        split
        · intro hw2; exact ih [] (by simp) w hw2
        · intro hw2
          rcases List.mem_cons.mp hw2 with h | h
          · intro c hc
            rw [h] at hc
            exact hacc c (List.mem_reverse.mp hc)
          · exact ih [] (by simp) w h
      · have hw2 : w ∈ fieldsAux cs (a :: acc) := by
          simpa [fieldsAux, ha] using hw
        refine ih (a :: acc) ?_ w hw2
        intro c hc
        rcases List.mem_cons.mp hc with h | h
        · rw [h]; exact Bool.not_eq_true _ ▸ (by simpa using ha)
        · exact hacc c h

theorem fields_no_space (s : Str) :
    ∀ w ∈ fields s, ∀ c ∈ w, goIsSpace c = false :=
  fieldsAux_no_space s [] (by simp)

theorem joinDash_mem :
    ∀ (parts : List Str) (c : Char), c ∈ joinDash parts →
      c = '-' ∨ ∃ p ∈ parts, c ∈ p := by
  intro parts
  induction parts with
  | nil => intro c hc; exact absurd hc (List.not_mem_nil c)
  | cons x xs ih =>
      intro c hc
      cases xs with
      | nil => exact Or.inr ⟨x, List.mem_cons_self x [], by simpa [joinDash] using hc⟩
      | cons y ys =>
          have hc2 : c ∈ x ++ '-' :: joinDash (y :: ys) := by simpa [joinDash] using hc
          rcases List.mem_append.mp hc2 with h | h
          · exact Or.inr ⟨x, List.mem_cons_self x _, h⟩
          · rcases List.mem_cons.mp h with h | h
            · exact Or.inl h
            · rcases ih c h with h | ⟨p, hp, hcp⟩
              · exact Or.inl h
              · exact Or.inr ⟨p, List.mem_cons_of_mem x hp, hcp⟩

theorem extractPatternDescriptor_cases :
    ∀ (table : List (List Str × Str)) (content : Str),
      extractPatternDescriptor table content = [] ∨
      ∃ e ∈ table, extractPatternDescriptor table content = e.2 := by
  intro table
  induction table with
  | nil => intro content; exact Or.inl rfl
  | cons e rest ih =>
      intro content
      rw [show extractPatternDescriptor (e :: rest) content
            = (if matchesAlternation e.1 content then e.2
               else extractPatternDescriptor rest content) from rfl]
      split
      · exact Or.inr ⟨e, List.mem_cons_self e rest, rfl⟩
      · rcases ih content with h | ⟨f, hf, hres⟩
        · exact Or.inl h
        · exact Or.inr ⟨f, List.mem_cons_of_mem e hf, hres⟩

theorem techPatterns_no_space :
    ∀ e ∈ techPatterns, ∀ c ∈ e.2, goIsSpace c = false := by decide

theorem funcPatterns_no_space :
    ∀ e ∈ funcPatterns, ∀ c ∈ e.2, goIsSpace c = false := by decide

theorem extractTitleDescriptor_no_space (title : Str) :
    ∀ c ∈ extractTitleDescriptor title, goIsSpace c = false := by
  intro c hc
  unfold extractTitleDescriptor at hc
  rcases joinDash_mem _ c hc with h | ⟨p, hp, hcp⟩
  · rw [h]; decide
  · have hp2 : p ∈ (fields (title.map Char.toLower)).filter
        (fun w => !stopWords.contains w && 2 < w.length) := by
      revert hp
      split
      · intro hp; exact List.take_subset _ _ hp
      · intro hp; exact hp
    exact fields_no_space _ p ((List.filter_sublist _).subset hp2) c hcp

/-- No descriptor fragment contains whitespace: title fragments are
whitespace-split words, table fragments are fixed single words. -/
theorem descriptorList_no_space (techOrder funcOrder : List (List Str × Str))
    (sec : ContentSection) (ht : techOrder.Perm techPatterns)
    (hf : funcOrder.Perm funcPatterns) :
    ∀ p ∈ descriptorList techOrder funcOrder sec, ∀ c ∈ p, goIsSpace c = false := by
  intro p hp
  unfold descriptorList at hp
  rcases List.mem_append.mp hp with hp1 | hpf
  · rcases List.mem_append.mp hp1 with hpt | hptech
    · revert hpt
      split
      · intro hpt; exact absurd hpt (List.not_mem_nil p)
      · intro hpt
        rw [List.mem_singleton.mp hpt]
        exact extractTitleDescriptor_no_space sec.Title
    · revert hptech
      split
      · intro hptech; exact absurd hptech (List.not_mem_nil p)
      · intro hptech
        rw [List.mem_singleton.mp hptech]
        rcases extractPatternDescriptor_cases techOrder
            ((sec.Title ++ ' ' :: sec.Content).map Char.toLower) with h | ⟨e, he, hres⟩
        · rw [show extractTechnologyDescriptor techOrder
                ((sec.Title ++ ' ' :: sec.Content).map Char.toLower)
                  = extractPatternDescriptor techOrder
                      ((sec.Title ++ ' ' :: sec.Content).map Char.toLower) from rfl, h]
          intro c hc; exact absurd hc (List.not_mem_nil c)
        · rw [show extractTechnologyDescriptor techOrder
                ((sec.Title ++ ' ' :: sec.Content).map Char.toLower)
                  = extractPatternDescriptor techOrder
                      ((sec.Title ++ ' ' :: sec.Content).map Char.toLower) from rfl, hres]
          exact techPatterns_no_space e (ht.mem_iff.mp he)
  · revert hpf
    split
    · intro hpf; exact absurd hpf (List.not_mem_nil p)
    · intro hpf
      rw [List.mem_singleton.mp hpf]
      rcases extractPatternDescriptor_cases funcOrder
          ((sec.Title ++ ' ' :: sec.Content).map Char.toLower) with h | ⟨e, he, hres⟩
      · rw [show extractFunctionDescriptor funcOrder
              ((sec.Title ++ ' ' :: sec.Content).map Char.toLower)
                = extractPatternDescriptor funcOrder
                    ((sec.Title ++ ' ' :: sec.Content).map Char.toLower) from rfl, h]
        intro c hc; exact absurd hc (List.not_mem_nil c)
      · rw [show extractFunctionDescriptor funcOrder
              ((sec.Title ++ ' ' :: sec.Content).map Char.toLower)
                = extractPatternDescriptor funcOrder
                    ((sec.Title ++ ' ' :: sec.Content).map Char.toLower) from rfl, hres]
        exact funcPatterns_no_space e (hf.mem_iff.mp he)

/-- The sanitizer `SanitizeFileName` alone never returns the empty string (the empty
and all-dash inputs already fall back to `"unnamed"` inside it). -/
theorem SanitizeFileName_length_pos (name : Str) :
    0 < (SanitizeFileName name).length := by
  have hSF : SanitizeFileName name
      = if (if MaxFileNameLength < (sanitizeCore name).length
            then (sanitizeCore name).take MaxFileNameLength
            else sanitizeCore name) = []
        then strL "unnamed"
        else (if MaxFileNameLength < (sanitizeCore name).length
              then (sanitizeCore name).take MaxFileNameLength
              else sanitizeCore name) := rfl
  rw [hSF]
  by_cases hXe : (if MaxFileNameLength < (sanitizeCore name).length
                  then (sanitizeCore name).take MaxFileNameLength
                  else sanitizeCore name) = []
  · rw [if_pos hXe]; decide
  · rw [if_neg hXe]; exact List.length_pos.mpr hXe

/-! ## Test fixtures -/

/-- A section whose lower-cased title+content matches two technology
patterns (`redis` and `docker`). -/
def sectionRedisDocker : ContentSection :=
  { Title := strL "x", Content := strL "redis docker",
    StartLine := 0, EndLine := 0, WordCount := 0 }

/-- A section with no title descriptor (empty title) and no technology or
function match, 10 words long. -/
def sectionNoDescriptors : ContentSection :=
  { Title := strL "", Content := strL "zz qq ww ee rr tt yy uu ii oo",
    StartLine := 0, EndLine := 0, WordCount := 10 }

/-- A section whose title carries an underscore through sanitization. -/
def sectionUnderscore : ContentSection :=
  { Title := strL "x_y", Content := strL "zz qq ww ee rr tt yy uu ii oo",
    StartLine := 0, EndLine := 0, WordCount := 10 }

/-- A chapter file named `a.md`. -/
def chapterA : ContextFile :=
  { FileName := strL "a.md", Content := [], WordCount := 0, TokenCount := 0,
    Summary := [], KeyTerms := [] }

/-- A chapter file (as reachable in update mode, where names come from the
file system) whose name embeds the index placeholder. -/
def placeholderFile : ContextFile :=
  { FileName := chapterPlaceholder ++ strL ".md", Content := [], WordCount := 0,
    TokenCount := 0, Summary := [], KeyTerms := [] }

/-- The characters the specification permits in an identifier base. -/
def lowerAlnumDash (c : Char) : Bool :=
  ('a' ≤ c && c ≤ 'z') || ('0' ≤ c && c ≤ '9') || c = '-'

/-! ## Claims -/

/-- C1: the identifier of a section whose content matches more than one
entry of the technology table depends on the iteration order of the Go
map holding the table: the declaration order and its reverse — both
iteration orders the Go runtime may produce, being permutations of the
same map entries — give different identifiers for the same section, so
identifier generation is not a function of the section alone and two
invocations need not agree, contrary to the spec's determinism guarantee
and declaration-order rule. -/
theorem mapOrder_changes_identifier :
    (techPatterns.reverse).Perm techPatterns ∧
    generateDescriptiveFileName techPatterns funcPatterns sectionRedisDocker
      = strL "redis.md" ∧
    generateDescriptiveFileName techPatterns.reverse funcPatterns sectionRedisDocker
      = strL "docker.md" :=
  ⟨List.reverse_perm techPatterns, by decide, by decide⟩

/-- C2 counterexample: on a document containing the chapter placeholder
twice, `UpdateTemplateWithChapters` replaces both occurrences
(`strings.ReplaceAll`), so the result is not "first occurrence replaced,
second left in place" as the claim states. -/
theorem updateTemplate_counterexample :
    UpdateTemplateWithChapters
        (chapterPlaceholder ++ '\n' :: chapterPlaceholder) [chapterA] (strL "context")
      = renderedChapters [chapterA] (strL "context") ++ '\n' ::
          renderedChapters [chapterA] (strL "context") ∧
    (UpdateTemplateWithChapters
        (chapterPlaceholder ++ '\n' :: chapterPlaceholder) [chapterA] (strL "context")
      == renderedChapters [chapterA] (strL "context") ++ '\n' :: chapterPlaceholder)
      = false := by
  constructor
  · decide
  · decide

/-- C2 amended: index synchronization replaces every occurrence of each
of the two fixed placeholder strings with the joined, trimmed numbered
chapter list, and when neither placeholder is present the document text
is returned unchanged (no error value exists at this layer).  The
every-occurrence behavior is exhibited on documents with two chapter
placeholder occurrences; `'('` marks where a placeholder can start. -/
theorem updateTemplate_replaces_every (doc A B C : Str)
    (contextFiles : List ContextFile) (dir : Str) :
    (containsSub doc chapterPlaceholder = false →
     containsSub doc contextPlaceholder = false →
     UpdateTemplateWithChapters doc contextFiles dir = doc) ∧
    ((∀ c ∈ A, c ≠ '(') → (∀ c ∈ B, c ≠ '(') → (∀ c ∈ C, c ≠ '(') →
     (∀ c ∈ renderedChapters contextFiles dir, c ≠ '(') →
     UpdateTemplateWithChapters
         (A ++ (chapterPlaceholder ++ (B ++ (chapterPlaceholder ++ C))))
         contextFiles dir
       = A ++ (renderedChapters contextFiles dir ++
           (B ++ (renderedChapters contextFiles dir ++ C)))) := by
  constructor
  · intro h1 h2
    rw [UpdateTemplateWithChapters_eq, replaceAll_of_not_contains _ _ _ h1,
        replaceAll_of_not_contains _ _ _ h2]
  · intro hA hB hC hL
    rw [UpdateTemplateWithChapters_eq, chapterPlaceholder_cons,
        replaceAll_append_left '(' _ _ _ A hA,
        replaceAll_self_append,
        replaceAll_append_left '(' _ _ _ B hB,
        replaceAll_self_append,
        replaceAll_of_not_contains _ _ C (not_contains_of_marker '(' _ C hC),
        contextPlaceholder_cons,
        replaceAll_of_not_contains _ _ _ (not_contains_of_marker '(' _ _ ?_)]
    intro c hc
    simp only [List.mem_append] at hc
    rcases hc with h | h | h | h | h
    · exact hA c h
    · exact hL c h
    · exact hB c h
    · exact hL c h
    · exact hC c h

/-- Witness for the amended C2 at a concrete document, chapter list and
directory name. -/
theorem updateTemplate_replaces_every_witness :
    UpdateTemplateWithChapters
        (strL "x" ++ (chapterPlaceholder ++ (strL "y" ++ (chapterPlaceholder ++ strL "z"))))
        [chapterA] (strL "context")
      = strL "x" ++ (renderedChapters [chapterA] (strL "context") ++
          (strL "y" ++ (renderedChapters [chapterA] (strL "context") ++ strL "z"))) :=
  (updateTemplate_replaces_every (strL "hello") (strL "x") (strL "y") (strL "z")
    [chapterA] (strL "context")).2 (by decide) (by decide) (by decide) (by decide)

/-- C3: the claim's fallback can never fire as specified.
`SanitizeFileName` never returns an empty string (it substitutes
`"unnamed"` itself), so the `"general-context"` default inside
`generateDescriptiveFileName` is unreachable: a section with an empty
title descriptor and no technology or function match gets the identifier
`"unnamed.md"`, not `"general-context.md"`. -/
theorem emptyDescriptor_yields_unnamed :
    (∀ name : Str, 0 < (SanitizeFileName name).length) ∧
    generateDescriptiveFileName techPatterns funcPatterns sectionNoDescriptors
      = strL "unnamed.md" :=
  ⟨SanitizeFileName_length_pos, by decide⟩

/-- C4: on a document whose lines are a header-free preamble followed by
blocks — each a `##` header line and a header-free body of at least 10
words — segmentation yields exactly one section per block, in document
order, the section's content being the text between its header line and
the next header line (the body lines joined by newlines, surrounding
whitespace trimmed as the scanner's buffer close does), with the
preamble discarded. -/
theorem segmentation_exact (doc : Str) (pre : List Str)
    (blocks : List (Str × List Str))
    (hsplit : splitLinesGo doc = pre ++ blocksLines blocks)
    (hpre : ∀ l ∈ pre, isHeader l = false)
    (hblocks : ∀ b ∈ blocks, WfBlock b) :
    (parseSourceFile doc).map (fun s => (s.Title, s.Content))
      = blocks.map (fun b => (headerTitle b.1, trimSpace (joinLines b.2))) := by
  unfold parseSourceFile
  rw [hsplit, parseLines_skip_pre (blocksLines blocks) [] pre 0 hpre]
  cases blocks with
  | nil => rfl
  | cons b blocks =>
      obtain ⟨hhd, hbody, hcnt⟩ := hblocks b (List.mem_cons_self b blocks)
      rw [show blocksLines (b :: blocks) = b.1 :: (b.2 ++ blocksLines blocks) from by
            simp [blocksLines, blockLines],
          parseLines_cons_header_none b.1 _ _ [] hhd,
          parseLines_accum_body (blocksLines blocks) (headerTitle b.1) _ b.2 [] _ hbody,
          List.nil_append,
          parseLines_blocks blocks _ _ _ _
            (fun x hx => hblocks x (List.mem_cons_of_mem b hx)) hcnt]
      simp

/-- Witness for C4 on a two-chapter document with a preamble. -/
theorem segmentation_exact_witness :
    (parseSourceFile (strL "intro\n## One\na b c d e f g h i j\n## Two\nk l m n o p q r s t u\n")).map
        (fun s => (s.Title, s.Content))
      = [(strL "One", [strL "a b c d e f g h i j"]),
         (strL "Two", [strL "k l m n o p q r s t u"])].map
          (fun b => (headerTitle b.1, trimSpace (joinLines b.2))) :=
  segmentation_exact _ [strL "intro"]
    [(strL "## One", [strL "a b c d e f g h i j"]),
     (strL "## Two", [strL "k l m n o p q r s t u"])]
    (by decide) (by decide) (by decide)

/-- C5: every context file produced by the analyzer comes from a section
that passed the minimum-word-count filter: its word count is at least
`MinWordCountForFile` (10) and equals the number of whitespace-delimited
tokens of its content; sections below the minimum are dropped by the
scanner (never emitted), so no chapter is ever created from them — this
holds for every map-iteration order. -/
theorem contextFile_min_words (techOrder funcOrder : List (List Str × Str))
    (doc : Str) (f : ContextFile)
    (hf : f ∈ AnalyzeAndGenerate techOrder funcOrder doc) :
    MinWordCountForFile ≤ f.WordCount ∧ f.WordCount = (fields f.Content).length := by
  obtain ⟨s, hs, rfl⟩ := List.mem_map.mp hf
  simpa using parseLines_wordCount (splitLinesGo doc) 0 none [] s hs

/-- Witness for C5 on a concrete one-chapter document. -/
theorem contextFile_min_words_witness :
    MinWordCountForFile ≤
        ((AnalyzeAndGenerate techPatterns funcPatterns
            (strL "## A\nalpha beta gamma delta epsilon zeta eta tht iot kpp\n")).headD
          { FileName := [], Content := [], WordCount := 0, TokenCount := 0,
            Summary := [], KeyTerms := [] }).WordCount ∧
      ((AnalyzeAndGenerate techPatterns funcPatterns
            (strL "## A\nalpha beta gamma delta epsilon zeta eta tht iot kpp\n")).headD
          { FileName := [], Content := [], WordCount := 0, TokenCount := 0,
            Summary := [], KeyTerms := [] }).WordCount
        = (fields ((AnalyzeAndGenerate techPatterns funcPatterns
              (strL "## A\nalpha beta gamma delta epsilon zeta eta tht iot kpp\n")).headD
            { FileName := [], Content := [], WordCount := 0, TokenCount := 0,
              Summary := [], KeyTerms := [] }).Content).length :=
  contextFile_min_words techPatterns funcPatterns
    (strL "## A\nalpha beta gamma delta epsilon zeta eta tht iot kpp\n") _ (by decide)

/-- C6 counterexample: the identifier generated for a section titled
`x_y` is `x_y.md`, whose base contains `_`, a character outside
`[a-z0-9-]` — `SanitizeFileName` only replaces nine specific characters
and leaves underscores (and similar) in place. -/
theorem identifier_charset_counterexample :
    generateDescriptiveFileName techPatterns funcPatterns sectionUnderscore
      = strL "x_y.md" ∧
    (strL "x_y").all lowerAlnumDash = false := by
  constructor
  · decide
  · decide

/-- C6 amended: for every section and every iteration order of the two
pattern maps, the generated identifier is a non-empty base followed by
the fixed `.md` suffix, where the base contains none of the nine
characters the sanitizer replaces (`/ \ : * ? " < > |`) and no
whitespace; the base is not, however, restricted to `[a-z0-9-]`. -/
theorem identifier_charset (techOrder funcOrder : List (List Str × Str))
    (sec : ContentSection)
    (ht : techOrder.Perm techPatterns) (hf : funcOrder.Perm funcPatterns) :
    ∃ base : Str,
      generateDescriptiveFileName techOrder funcOrder sec = base ++ strL ".md" ∧
      0 < base.length ∧
      ∀ c ∈ base, dangerousChar c = false ∧ goIsSpace c = false := by
  have h1 : ∀ c ∈ joinDash (descriptorList techOrder funcOrder sec),
      goIsSpace c = false := by
    intro c hc
    rcases joinDash_mem _ c hc with h | ⟨p, hp, hcp⟩
    · rw [h]; decide
    · exact descriptorList_no_space techOrder funcOrder sec ht hf p hp c hcp
  obtain ⟨h2, h2len⟩ := SanitizeFileName_clean _ h1
  have h3 : ∀ c ∈ (if MaxDescriptiveLength <
        (SanitizeFileName (joinDash (descriptorList techOrder funcOrder sec))).length
      then (SanitizeFileName (joinDash (descriptorList techOrder funcOrder sec))).take
        MaxDescriptiveLength
      else SanitizeFileName (joinDash (descriptorList techOrder funcOrder sec))),
      dangerousChar c = false ∧ goIsSpace c = false := by
    split
    · intro c hc; exact h2 c (List.take_subset _ _ hc)
    · exact h2
  have hgen : generateDescriptiveFileName techOrder funcOrder sec
      = (if (if MaxDescriptiveLength <
              (SanitizeFileName (joinDash (descriptorList techOrder funcOrder sec))).length
            then (SanitizeFileName (joinDash (descriptorList techOrder funcOrder sec))).take
              MaxDescriptiveLength
            else SanitizeFileName (joinDash (descriptorList techOrder funcOrder sec))) = []
         then strL "general-context"
         else (if MaxDescriptiveLength <
                (SanitizeFileName (joinDash (descriptorList techOrder funcOrder sec))).length
              then (SanitizeFileName (joinDash (descriptorList techOrder funcOrder sec))).take
                MaxDescriptiveLength
              else SanitizeFileName (joinDash (descriptorList techOrder funcOrder sec))))
        ++ strL ".md" := rfl
  by_cases hXe : (if MaxDescriptiveLength <
        (SanitizeFileName (joinDash (descriptorList techOrder funcOrder sec))).length
      then (SanitizeFileName (joinDash (descriptorList techOrder funcOrder sec))).take
        MaxDescriptiveLength
      else SanitizeFileName (joinDash (descriptorList techOrder funcOrder sec))) = []
  · refine ⟨strL "general-context", ?_, by decide, by decide⟩
    rw [hgen, if_pos hXe]
  · refine ⟨_, ?_, List.length_pos.mpr hXe, h3⟩
    rw [hgen, if_neg hXe]

/-- Witness for the amended C6 at the declaration-order tables and a
concrete section. -/
theorem identifier_charset_witness :
    ∃ base : Str,
      generateDescriptiveFileName techPatterns funcPatterns sectionRedisDocker
        = base ++ strL ".md" ∧
      0 < base.length ∧
      ∀ c ∈ base, dangerousChar c = false ∧ goIsSpace c = false :=
  identifier_charset techPatterns funcPatterns sectionRedisDocker
    (List.Perm.refl techPatterns) (List.Perm.refl funcPatterns)

/-- C7 counterexample: with a chapter whose filename embeds the chapter
placeholder (reachable in update mode, where chapter names come from the
file system), the rendered list reintroduces the placeholder, the second
synchronization pass replaces it again, and
`synchronize(synchronize(doc, chapters), chapters) ≠ synchronize(doc, chapters)`. -/
theorem sync_not_idempotent_counterexample :
    (UpdateTemplateWithChapters
        (UpdateTemplateWithChapters chapterPlaceholder [placeholderFile] (strL "context"))
        [placeholderFile] (strL "context")
      == UpdateTemplateWithChapters chapterPlaceholder [placeholderFile] (strL "context"))
      = false := by decide

/-- C7 amended: once the first synchronization pass leaves a document in
which neither placeholder occurs any longer — which is what "the
placeholder is gone" must mean, and what holds whenever the rendered
chapter entries do not themselves reintroduce a placeholder — a second
pass with the same chapter set is a true no-op. -/
theorem sync_idempotent_amend (doc : Str) (contextFiles : List ContextFile) (dir : Str)
    (h1 : containsSub (UpdateTemplateWithChapters doc contextFiles dir)
        chapterPlaceholder = false)
    (h2 : containsSub (UpdateTemplateWithChapters doc contextFiles dir)
        contextPlaceholder = false) :
    UpdateTemplateWithChapters (UpdateTemplateWithChapters doc contextFiles dir)
        contextFiles dir
      = UpdateTemplateWithChapters doc contextFiles dir := by
  rw [UpdateTemplateWithChapters_eq (UpdateTemplateWithChapters doc contextFiles dir),
      replaceAll_of_not_contains _ _ _ h1, replaceAll_of_not_contains _ _ _ h2]

/-- Witness for the amended C7 on a concrete document and chapter list. -/
theorem sync_idempotent_amend_witness :
    UpdateTemplateWithChapters
        (UpdateTemplateWithChapters
          (strL "intro " ++ chapterPlaceholder) [chapterA] (strL "context"))
        [chapterA] (strL "context")
      = UpdateTemplateWithChapters
          (strL "intro " ++ chapterPlaceholder) [chapterA] (strL "context") :=
  sync_idempotent_amend _ _ _ (by decide) (by decide)

/-- C8: when segmentation retains zero sections the convert flow returns
the distinct "no content sections found in source file" error rather than
success; in particular a document all of whose lines fail the header test
(zero qualifying headers) is such a case. -/
theorem empty_sections_error (techOrder funcOrder : List (List Str × Str)) (doc : Str) :
    (parseSourceFile doc = [] →
      analyzeAndGenerateFiles techOrder funcOrder doc = Except.error noSectionsMsg) ∧
    ((∀ l ∈ splitLinesGo doc, isHeader l = false) →
      analyzeAndGenerateFiles techOrder funcOrder doc = Except.error noSectionsMsg) := by
  have main : parseSourceFile doc = [] →
      analyzeAndGenerateFiles techOrder funcOrder doc = Except.error noSectionsMsg := by
    intro h
    unfold analyzeAndGenerateFiles AnalyzeAndGenerate generateContextFiles
    rw [h]
    rfl
  exact ⟨main, fun h => main (parseLines_no_headers (splitLinesGo doc) 0 [] h)⟩

/-- Witness for C8: a document with only a level-1 header. -/
theorem empty_sections_error_witness :
    analyzeAndGenerateFiles techPatterns funcPatterns (strL "# Title\nsome words here")
      = Except.error noSectionsMsg :=
  (empty_sections_error techPatterns funcPatterns (strL "# Title\nsome words here")).1
    (by decide)

/-- C9: on every path of the convert flow that reaches the
average-tokens-per-file division of `previewConversion` or
`printConversionSuccess`, the context-file list is non-empty — the empty
list was already turned into an error by `analyzeAndGenerateFiles` — so
the `none` value modelling Go's division-by-zero panic is unreachable. -/
theorem runConvert_no_div_by_zero (techOrder funcOrder : List (List Str × Str))
    (dryRun : Bool) (doc : Str) (r : Option Nat)
    (h : runConvert techOrder funcOrder dryRun doc = Except.ok r) :
    r.isSome = true := by
  unfold runConvert at h
  cases hA : analyzeAndGenerateFiles techOrder funcOrder doc with
  | error e => rw [hA] at h; simp at h
  | ok contextFiles =>
      rw [hA] at h
      simp only [] at h
      have hne : contextFiles ≠ [] := by
        unfold analyzeAndGenerateFiles at hA
        by_cases hempty : AnalyzeAndGenerate techOrder funcOrder doc = []
        · rw [if_pos hempty] at hA; exact absurd hA (by simp)
        · rw [if_neg hempty] at hA
          rw [← Except.ok.inj hA]
          exact hempty
      have hlen : contextFiles.length ≠ 0 := fun h0 => hne (List.length_eq_zero.mp h0)
      cases dryRun with
      | false =>
          rw [if_neg (by simp)] at h
          rw [← Except.ok.inj h]
          unfold printConversionSuccess
          rw [if_neg hlen]
          rfl
      | true =>
          rw [if_pos rfl] at h
          rw [← Except.ok.inj h]
          unfold previewConversion
          rw [if_neg hlen]
          rfl

/-- Witness for C9: a dry run on a one-chapter document prints the
average `4` (19 characters / 4 tokens over one file). -/
theorem runConvert_no_div_by_zero_witness : (Option.some 4).isSome = true :=
  runConvert_no_div_by_zero techPatterns funcPatterns true
    (strL "## t\na b c d e f g h i j") (some 4) (by rfl)

/-- C10: in update mode, the chapter list built from a directory listing
(which `os.ReadDir` returns sorted by filename, here a hypothesis)
consists exactly of the names of the non-directory entries ending in
`.md`, in lexicographically sorted order — so the numbered index entries
follow filename order, not original document order. -/
theorem scan_sorted_filter (entries : List DirEntry)
    (hs : entries.Pairwise (fun a b => lexLe a.name b.name = true)) :
    (scanContextDirectory entries).map ContextFile.FileName
      = (entries.filter keepEntry).map DirEntry.name ∧
    ((scanContextDirectory entries).map ContextFile.FileName).Pairwise
      (fun a b => lexLe a b = true) := by
  have hmap : (scanContextDirectory entries).map ContextFile.FileName
      = (entries.filter keepEntry).map DirEntry.name := by
    unfold scanContextDirectory
    rw [List.map_map]
    rfl
  refine ⟨hmap, ?_⟩
  rw [hmap]
  exact List.pairwise_map.mpr (List.Pairwise.sublist (List.filter_sublist entries) hs)

/-- Witness for C10 on a concrete sorted listing with a non-`.md` file
and a directory mixed in. -/
theorem scan_sorted_filter_witness :
    (scanContextDirectory
        [{ name := strL "alpha.md", isDir := false },
         { name := strL "beta.txt", isDir := false },
         { name := strL "gamma.md", isDir := true },
         { name := strL "zeta.md", isDir := false }]).map ContextFile.FileName
      = ([{ name := strL "alpha.md", isDir := false },
          { name := strL "beta.txt", isDir := false },
          { name := strL "gamma.md", isDir := true },
          { name := strL "zeta.md", isDir := false }].filter keepEntry).map DirEntry.name ∧
    ((scanContextDirectory
        [{ name := strL "alpha.md", isDir := false },
         { name := strL "beta.txt", isDir := false },
         { name := strL "gamma.md", isDir := true },
         { name := strL "zeta.md", isDir := false }]).map ContextFile.FileName).Pairwise
      (fun a b => lexLe a b = true) :=
  scan_sorted_filter
    [{ name := strL "alpha.md", isDir := false },
     { name := strL "beta.txt", isDir := false },
     { name := strL "gamma.md", isDir := true },
     { name := strL "zeta.md", isDir := false }] (by decide)

end Contindex
